import Mathlib

/-!
Verification of the dtsh line tokenizer (`tokenize.go`).

The Go source models tokenization as a five-state machine scanning the
input characters with one synthetic trailing space appended.  We embed the
scanner shallowly: the loop body of `Tokenize` becomes the pure transition
function `step` on an explicit `ScanState`, and `Tokenize` itself is a
left fold of `step` over the input's characters followed by a space,
exactly as the Go `for _, char := range s + " "` loop does.
-/

namespace Dtsh

/-- Go `TokenType`: `TokenRegular` covers bare words and double-quoted
spans, `TokenLiteral` covers single-quoted spans. -/
inductive TokenType where
  | TokenRegular
  | TokenLiteral
deriving DecidableEq, Repr

/-- Go `Token`: a `TokenType` together with the decoded value.  (The Go
field `Type` is spelled `type_` here because `Type` is reserved.) -/
structure Token where
  type_ : TokenType
  value : String
deriving DecidableEq, Repr

/-- Go local type `stateT`: the five scanner modes. -/
inductive stateT where
  | stateWhitespace
  | stateWord
  | stateString
  | stateLiteral
  | stateBackslash
deriving DecidableEq, Repr

open stateT TokenType

/-- The mutable locals of Go `Tokenize`: the tokens emitted so far, the
pending rune buffer `token`, the current `state`, and `lastState` (Go zero
value `stateWhitespace`). -/
structure ScanState where
  tokens : List Token
  token : List Char
  state : stateT
  lastState : stateT
deriving DecidableEq, Repr

/-- The inner switch of Go's `stateBackslash` case: decode one escaped
character (`n`, `r`, `t`, `b`, `f`, `v` become control characters, any
other character passes through unchanged). -/
def decodeEscape (char : Char) : Char :=
  if char = 'n' then '\n'
  else if char = 'r' then '\r'
  else if char = 't' then '\t'
  else if char = 'b' then '\x08'
  else if char = 'f' then '\x0c'
  else if char = 'v' then '\x0b'
  else char

/-- One iteration of the Go loop body of `Tokenize`: the outer switch on
`state`, then the inner switch on `char`. -/
def step (st : ScanState) (char : Char) : ScanState :=
  match st.state with
  | stateWhitespace =>
    if char = '"' then { st with state := stateString }
    else if char = '\x27' then { st with state := stateLiteral }
    else if char = ' ' then { st with state := stateWhitespace }
    else { st with token := st.token ++ [char], state := stateWord }
  | stateWord =>
    if char = ' ' then
      { st with tokens := st.tokens ++ [⟨TokenRegular, String.mk st.token⟩],
                token := [], state := stateWhitespace }
    else if char = '"' then { st with state := stateString }
    else if char = '\x27' then { st with state := stateLiteral }
    else { st with token := st.token ++ [char] }
  | stateString =>
    if char = '"' then
      { st with tokens := st.tokens ++ [⟨TokenRegular, String.mk st.token⟩],
                token := [], state := stateWhitespace }
    else if char = '\\' then
      { st with lastState := stateString, state := stateBackslash }
    else { st with token := st.token ++ [char] }
  | stateLiteral =>
    if char = '\x27' then
      { st with tokens := st.tokens ++ [⟨TokenLiteral, String.mk st.token⟩],
                token := [], state := stateWhitespace }
    else if char = '\\' then
      { st with lastState := stateLiteral, state := stateBackslash }
    else { st with token := st.token ++ [char] }
  | stateBackslash =>
    { st with token := st.token ++ [decodeEscape char], state := st.lastState }

/-- The initial values of the Go locals: no tokens, empty buffer,
`stateWhitespace`, and `lastState` at its zero value `stateWhitespace`. -/
def initState : ScanState :=
  ⟨[], [], stateWhitespace, stateWhitespace⟩

/-- Run the scanner over a character list. -/
def scan (cs : List Char) : ScanState :=
  cs.foldl step initState

/-- Go `Tokenize`: scan the runes of `s + " "` (the loop appends one
synthetic trailing space so that a pending word is flushed) and return
the emitted tokens. -/
def Tokenize (s : String) : List Token :=
  (scan (s.data ++ [' '])).tokens

/-- The reachability invariant of the scanner: whenever the machine sits in
`stateBackslash`, the saved `lastState` is one of the two quoted modes (the
only states that ever save before entering `stateBackslash`). -/
def goodState (st : ScanState) : Prop :=
  st.state = stateBackslash → st.lastState = stateString ∨ st.lastState = stateLiteral

/- Helper lemmas about single steps and folds. -/

lemma scan_append_char (l : List Char) (c : Char) :
    scan (l ++ [c]) = step (scan l) c := by
  simp [scan, List.foldl_append]

lemma goodState_step (st : ScanState) (c : Char) (h : goodState st) :
    goodState (step st c) := by
  obtain ⟨tks, tok, s, ls⟩ := st
  cases s with
  | stateBackslash =>
      intro hb
      rcases h rfl with h1 | h1 <;> simp_all [step]
  | stateWhitespace =>
      simp only [step, goodState] at *
      split_ifs <;> simp_all
  | stateWord =>
      simp only [step, goodState] at *
      split_ifs <;> simp_all
  | stateString =>
      simp only [step, goodState] at *
      split_ifs <;> simp_all
  | stateLiteral =>
      simp only [step, goodState] at *
      split_ifs <;> simp_all

lemma goodState_foldl (l : List Char) :
    ∀ st : ScanState, goodState st → goodState (l.foldl step st) := by
  induction l with
  | nil => intro st h; simpa using h
  | cons c cs ih =>
    intro st h
    simpa using ih (step st c) (goodState_step st c h)

lemma goodState_scan (l : List Char) : goodState (scan l) :=
  goodState_foldl l initState (by intro h; cases h)

lemma step_space_tokens (st : ScanState) (h : st.state ≠ stateWord) :
    (step st ' ').tokens = st.tokens := by
  obtain ⟨tks, tok, s, ls⟩ := st
  cases s <;> simp_all [step]

lemma step_space_state (st : ScanState) (h : goodState st) :
    (step st ' ').state = stateWhitespace ∨ (step st ' ').state = stateString ∨
      (step st ' ').state = stateLiteral := by
  obtain ⟨tks, tok, s, ls⟩ := st
  cases s <;> simp_all [step, goodState]

/-- C1: the claim asserts `Tokenize "ab\"cd\"ef"` is the single token
`Regular "abcdef"`.  It is not: the closing quote flushes the pending
buffer, so the result is the two tokens `Regular "abcd"` and
`Regular "ef"`. -/
theorem C1_counterexample :
    Tokenize "ab\"cd\"ef" ≠ [⟨TokenRegular, "abcdef"⟩] := by
  decide

/-- C1 (amended): a double quote met in Word mode switches into String
mode without flushing the pending buffer, so the quoted content is
appended to the same in-progress token; but the closing quote flushes
that token, so `ab"cd"ef` yields the two tokens `Regular "abcd"` and
`Regular "ef"` rather than one token `abcdef`. -/
theorem C1_midword_quote_appends :
    (∀ st : ScanState, st.state = stateWord →
        step st '"' = { st with state := stateString }) ∧
    Tokenize "ab\"cd\"ef" = [⟨TokenRegular, "abcd"⟩, ⟨TokenRegular, "ef"⟩] := by
  constructor
  · intro st h
    obtain ⟨tks, tok, s, ls⟩ := st
    simp only at h
    subst h
    simp [step]
  · rfl

/-- Witness for C1: the mid-word quote transition evaluated at a concrete
Word-mode scanner state, showing the buffer `['a', 'b']` survives the
switch into String mode unflushed. -/
theorem C1_witness :
    step ⟨[], ['a', 'b'], stateWord, stateWhitespace⟩ '"' =
      ⟨[], ['a', 'b'], stateString, stateWhitespace⟩ :=
  C1_midword_quote_appends.1 ⟨[], ['a', 'b'], stateWord, stateWhitespace⟩ rfl

/-- C3: `Tokenize` is total — every input string, including the empty
string, yields a (possibly empty) token sequence; there is no error
case. -/
theorem C3_total :
    (∀ s : String, ∃ ts : List Token, Tokenize s = ts) ∧ Tokenize "" = [] :=
  ⟨fun s => ⟨Tokenize s, rfl⟩, rfl⟩

/-- C4: closing a double quote transitions the machine directly to
Whitespace regardless of the next character, and concretely
`"abc"def` yields the two tokens `Regular "abc"` and `Regular "def"` —
no merging across a closed quote. -/
theorem C4_close_quote_to_whitespace :
    (∀ st : ScanState, st.state = stateString →
        (step st '"').state = stateWhitespace) ∧
    Tokenize "\"abc\"def" = [⟨TokenRegular, "abc"⟩, ⟨TokenRegular, "def"⟩] := by
  constructor
  · intro st h
    obtain ⟨tks, tok, s, ls⟩ := st
    simp only at h
    subst h
    simp [step]
  · rfl

/-- Witness for C4: the closing-quote transition evaluated at a concrete
String-mode scanner state. -/
theorem C4_witness :
    (step ⟨[], ['a'], stateString, stateWhitespace⟩ '"').state = stateWhitespace :=
  C4_close_quote_to_whitespace.1 ⟨[], ['a'], stateString, stateWhitespace⟩ rfl

/-- C5: the Backslash state appends the decoded escape and returns to
whichever mode was saved in `lastState`, so escapes behave identically
inside single- and double-quoted spans; concretely `'raw\ntext'` yields
one `Literal` token whose value holds an actual newline character. -/
theorem C5_backslash_returns :
    (∀ (st : ScanState) (c : Char), st.state = stateBackslash →
        step st c =
          { st with token := st.token ++ [decodeEscape c], state := st.lastState }) ∧
    Tokenize "\x27raw\\ntext\x27" = [⟨TokenLiteral, "raw\ntext"⟩] := by
  constructor
  · intro st c h
    obtain ⟨tks, tok, s, ls⟩ := st
    simp only at h
    subst h
    simp [step]
  · rfl

/-- Witness for C5: one Backslash step evaluated concretely — the escape
`\n` decodes to a newline and the machine resumes the saved String mode. -/
theorem C5_witness :
    (step ⟨[], [], stateBackslash, stateString⟩ 'n').state = stateString ∧
    (step ⟨[], [], stateBackslash, stateString⟩ 'n').token = ['\n'] := by
  rw [C5_backslash_returns.1 ⟨[], [], stateBackslash, stateString⟩ 'n' rfl]
  exact ⟨rfl, rfl⟩

/-- C10: an escaped delimiter inside a quoted span does not close the span
and is kept in the value: `"a\"b"` yields the one token `Regular "a\"b"`
and `'a\'b'` yields the one token `Literal "a'b"`. -/
theorem C10_escaped_delimiter :
    Tokenize "\"a\\\"b\"" = [⟨TokenRegular, "a\"b"⟩] ∧
    Tokenize "\x27a\\\x27b\x27" = [⟨TokenLiteral, "a\x27b"⟩] :=
  ⟨rfl, rfl⟩

/-- C2: whenever scanning the input proper leaves the machine in String,
Literal, or Backslash mode, the synthetic trailing space is consumed as
ordinary content — the pending buffer is never flushed and the emitted
tokens are exactly those already emitted before the trailing space; in
particular `Tokenize "\"unterminated"` is empty rather than an error. -/
theorem C2_unterminated_dropped :
    (∀ s : String,
        ((scan s.data).state = stateString ∨ (scan s.data).state = stateLiteral ∨
          (scan s.data).state = stateBackslash) →
        Tokenize s = (scan s.data).tokens) ∧
    Tokenize "\"unterminated" = [] := by
  constructor
  · intro s h
    have h1 : scan (s.data ++ [' ']) = step (scan s.data) ' ' :=
      scan_append_char s.data ' '
    unfold Tokenize
    rw [h1]
    apply step_space_tokens
    rcases h with h | h | h <;> simp [h]
  · rfl

/-- Witness for C2: the unterminated input `"abc` concretely leaves the
machine in String mode, and its pending buffer is dropped. -/
theorem C2_witness :
    (scan ("\"abc" : String).data).state = stateString ∧
    Tokenize "\"abc" = (scan ("\"abc" : String).data).tokens :=
  ⟨by decide, C2_unterminated_dropped.1 "\"abc" (Or.inl (by decide))⟩

/-- C6: outside the Backslash state, no step ever introduces the
delimiter of the current quoting context into the pending buffer: in
String mode a step never adds a `"`, in Literal mode a step never adds a
`'`, and in Whitespace or Word mode a step never adds either delimiter.
Hence a delimiter appearing in a token's value from its own quoting
context can only have been placed there by the Backslash (escape) state. -/
theorem C6_delimiter_only_by_escape :
    ∀ (st : ScanState) (c : Char),
      (st.state = stateString →
        ('"' ∈ (step st c).token → '"' ∈ st.token)) ∧
      (st.state = stateLiteral →
        ('\x27' ∈ (step st c).token → '\x27' ∈ st.token)) ∧
      ((st.state = stateWhitespace ∨ st.state = stateWord) →
        ('"' ∈ (step st c).token → '"' ∈ st.token) ∧
        ('\x27' ∈ (step st c).token → '\x27' ∈ st.token)) := by
  intro st c
  obtain ⟨tks, tok, s, ls⟩ := st
  refine ⟨?_, ?_, ?_⟩ <;> intro hs
  · simp only at hs
    subst hs
    simp only [step]
    split_ifs <;> (try simp_all) <;> rintro (hm | hm) <;>
      first
      | assumption
      | exact absurd hm.symm (by assumption)
  · simp only at hs
    subst hs
    simp only [step]
    split_ifs <;> (try simp_all) <;> rintro (hm | hm) <;>
      first
      | assumption
      | exact absurd hm.symm (by assumption)
  · simp only at hs
    rcases hs with hs | hs <;> subst hs <;> simp only [step] <;>
      split_ifs <;> constructor <;> (try simp_all) <;>
      rintro (hm | hm) <;>
      first
      | assumption
      | exact absurd hm.symm (by assumption)

/-- Witness for C6: in String mode a quote already present in the buffer
is accounted for — applying the theorem at a concrete state whose buffer
already holds `"` and an ordinary next character. -/
theorem C6_witness :
    ('"' : Char) ∈ (⟨[], ['"'], stateString, stateWhitespace⟩ : ScanState).token :=
  (C6_delimiter_only_by_escape ⟨[], ['"'], stateString, stateWhitespace⟩ 'x').1 rfl
    (by decide)

lemma foldl_word_plain (l : List Char) :
    ∀ st : ScanState, st.state = stateWord →
      (∀ c ∈ l, c ≠ ' ' ∧ c ≠ '"' ∧ c ≠ '\x27') →
      l.foldl step st = { st with token := st.token ++ l } := by
  induction l with
  | nil => intro st _ _; simp
  | cons c cs ih =>
    intro st hst hall
    obtain ⟨hc1, hc2, hc3⟩ := hall c (List.mem_cons_self c cs)
    have hstep : step st c = { st with token := st.token ++ [c] } := by
      obtain ⟨tks, tok, s, ls⟩ := st
      simp only at hst
      subst hst
      simp [step, hc1, hc2, hc3]
    rw [List.foldl_cons, hstep,
      ih { st with token := st.token ++ [c] } hst
        (fun d hd => hall d (List.mem_cons_of_mem c hd))]
    simp

lemma foldl_all_spaces (l : List Char) :
    ∀ st : ScanState, st.state = stateWhitespace → (∀ c ∈ l, c = ' ') →
      l.foldl step st = st := by
  induction l with
  | nil => intro st _ _; simp
  | cons c cs ih =>
    intro st hst hall
    have hc : c = ' ' := hall c (List.mem_cons_self c cs)
    subst hc
    have hstep : step st ' ' = st := by
      obtain ⟨tks, tok, s, ls⟩ := st
      simp only at hst
      subst hst
      simp [step]
    rw [List.foldl_cons, hstep]
    exact ih st hst (fun d hd => hall d (List.mem_cons_of_mem _ hd))

/-- C7: the claim asserts that re-tokenizing any already-decoded value
with no quoting and no escapes yields that value back as one token.  The
decoded value `def ghi` (itself produced from `"def ghi"`) refutes this:
it contains no quote or backslash, yet re-tokenizing splits it at the
space into two tokens. -/
theorem C7_counterexample :
    (Tokenize "def ghi").length = 2 ∧
    Tokenize "def ghi" ≠ [⟨TokenRegular, "def ghi"⟩] := by
  decide

/-- C7 (amended): for every nonempty value containing no space, no double
quote, no single quote and no backslash, `Tokenize` returns exactly one
`Regular` token whose value is the input itself. -/
theorem C7_decode_idempotent (v : String) (h1 : v.data ≠ [])
    (h2 : ∀ c ∈ v.data, c ≠ ' ' ∧ c ≠ '"' ∧ c ≠ '\x27' ∧ c ≠ '\\') :
    Tokenize v = [⟨TokenRegular, v⟩] := by
  obtain ⟨c, cs, hv⟩ : ∃ c cs, v.data = c :: cs := by
    cases hd : v.data with
    | nil => exact absurd hd h1
    | cons c cs => exact ⟨c, cs, rfl⟩
  obtain ⟨hc1, hc2, hc3, _⟩ := h2 c (hv ▸ List.mem_cons_self c cs)
  have hfirst : step initState c = ⟨[], [c], stateWord, stateWhitespace⟩ := by
    simp [step, initState, hc1, hc2, hc3]
  have hmid : cs.foldl step ⟨[], [c], stateWord, stateWhitespace⟩ =
      ⟨[], c :: cs, stateWord, stateWhitespace⟩ := by
    rw [foldl_word_plain cs ⟨[], [c], stateWord, stateWhitespace⟩ rfl
      (fun d hd => by
        obtain ⟨g1, g2, g3, _⟩ := h2 d (hv ▸ List.mem_cons_of_mem c hd)
        exact ⟨g1, g2, g3⟩)]
    simp
  have hlast : step ⟨[], c :: cs, stateWord, stateWhitespace⟩ ' ' =
      ⟨[⟨TokenRegular, String.mk (c :: cs)⟩], [], stateWhitespace,
        stateWhitespace⟩ := by
    simp [step]
  unfold Tokenize scan
  rw [hv, show (c :: cs) ++ [' '] = c :: (cs ++ [' ']) from rfl,
    List.foldl_cons, hfirst, List.foldl_append, hmid]
  simp only [List.foldl_cons, List.foldl_nil, hlast]
  have hmk : String.mk (c :: cs) = v := by
    rw [← hv]
  simp [hmk]

/-- Witness for C7 (amended): the already-decoded value `abc` re-tokenizes
to itself as one Regular token. -/
theorem C7_witness :
    ("abc" : String).data ≠ [] ∧ Tokenize "abc" = [⟨TokenRegular, "abc"⟩] :=
  ⟨by decide, C7_decode_idempotent "abc" (by decide) (by decide)⟩

/-- C8: an input that is empty or consists only of (space) whitespace
characters — the only whitespace the scanner recognizes — tokenizes to the
empty token sequence. -/
theorem C8_whitespace_empty (s : String) (h : ∀ c ∈ s.data, c = ' ') :
    Tokenize s = [] := by
  unfold Tokenize scan
  rw [foldl_all_spaces (s.data ++ [' ']) initState rfl
    (fun c hc => by
      rcases List.mem_append.1 hc with hc | hc
      · exact h c hc
      · simpa using hc)]
  rfl

/-- Witness for C8: the all-space input `"   "` and (via the same theorem
applied to `""`) the empty input both yield zero tokens. -/
theorem C8_witness :
    Tokenize "   " = [] ∧ Tokenize "" = [] :=
  ⟨C8_whitespace_empty "   " (by decide), C8_whitespace_empty "" (by decide)⟩

/-- C9: appending one space to any input never changes the result of
`Tokenize`: the synthetic trailing space already flushes a pending word,
and in a quoted or backslash mode the extra space is absorbed into the
(never-flushed) pending buffer. -/
theorem C9_trailing_space (s : String) : Tokenize s = Tokenize (s ++ " ") := by
  have hdata : (s ++ " ").data = s.data ++ [' '] := by
    rw [String.data_append]
  unfold Tokenize
  rw [hdata, scan_append_char s.data ' ', scan_append_char (s.data ++ [' ']) ' ',
    scan_append_char s.data ' ']
  refine (step_space_tokens (step (scan s.data) ' ') ?_).symm
  rcases step_space_state (scan s.data) (goodState_scan s.data) with h | h | h <;>
    simp [h]

end Dtsh
